import Mathlib

/-!
Verification development for the triangular-arbitrage scanner.

Embedded sources:
* `src/logic.rs` — `find_triangular_opportunities`: graph build, neighbor
  ranking, 3-cycle scan, fee/profit math, rotation dedup, final sort.
* `src/models.rs` — `ScanRequest` (the scan request shape).
* `src/exchanges/binance.rs` — `split_symbol_binance`.
* `src/exchanges/bybit.rs` — `split_symbol`.
* `src/ws_manager.rs` — `gather_prices_for_exchanges`.

Modelling conventions:
* `f64` values are modelled as exact rationals `ℚ`.  The operations the
  embedded code performs are `*`, `/`, `-`, comparisons, `min` and
  `powf(3.0)`, all exact on rationals.  The `is_finite` check of
  `logic.rs` line 98 is therefore always true in the model and is noted
  where dropped; non-finite floats (NaN/∞) are outside the model.
* Rust `HashMap`/`HashSet` have unspecified iteration order.  The model
  uses association lists in first-insertion key order, realizing one
  admissible deterministic iteration order; `insert` overwrites the value
  of an existing key in place, as `HashMap::insert` does.
* `Vec::sort_by` is a stable sort; it is modelled by a stable insertion
  sort, which computes the same output list as every stable sort run with
  the same comparator.  The comparators of the source use
  `partial_cmp(..).unwrap_or(Equal)`; on rationals `partial_cmp` is always
  `Some`, so the fallback is unreachable.
* Rust `str::len` counts bytes; all symbols and suffixes involved are
  ASCII, where bytes and characters coincide, so the model uses character
  counts.
-/

/-! ### Association-list model of `HashMap` keyed by `String` -/

abbrev AMap (β : Type) := List (String × β)

def lookupA {β : Type} : AMap β → String → Option β
  | [], _ => none
  | (k, v) :: rest, key => if key = k then some v else lookupA rest key

def insertA {β : Type} : AMap β → String → β → AMap β
  | [], k, v => [(k, v)]
  | (k', v') :: rest, k, v =>
    if k = k' then (k', v) :: rest else (k', v') :: insertA rest k v

def lookup2 {β : Type} (m : AMap (AMap β)) (k1 k2 : String) : Option β :=
  match lookupA m k1 with
  | some inner => lookupA inner k2
  | none => none

/-- Models `m.entry(k1).or_default().insert(k2, v)` on a nested map. -/
def insert2 {β : Type} (m : AMap (AMap β)) (k1 k2 : String) (v : β) : AMap (AMap β) :=
  insertA m k1 (insertA ((lookupA m k1).getD []) k2 v)

/-- Models `HashSet::insert` on a set kept as a duplicate-free list. -/
def insertSet (s : List String) (x : String) : List String :=
  if x ∈ s then s else s ++ [x]

def keysOf {β : Type} (m : AMap β) : List String := m.map (fun e => e.1)

/-! ### String helpers (ASCII) -/

/-- Models Rust `str::to_uppercase` (ASCII inputs). -/
def toUpperStr (s : String) : String := ⟨s.data.map Char.toUpper⟩

/-- Models Rust `str::to_lowercase` (ASCII inputs). -/
def toLowerStr (s : String) : String := ⟨s.data.map Char.toLower⟩

/-- Byte-lexicographic strict order on character lists, as Rust `Ord` on
`String` compares byte sequences (ASCII: identical to code points). -/
def strLtB : List Char → List Char → Bool
  | [], [] => false
  | [], _ :: _ => true
  | _ :: _, [] => false
  | c :: cs, d :: ds =>
    if c.toNat < d.toNat then true
    else if d.toNat < c.toNat then false
    else strLtB cs ds

def sLt (s t : String) : Bool := strLtB s.data t.data

/-- Models Rust `str::ends_with`. -/
def endsWithL (s suf : List Char) : Bool :=
  if suf.length ≤ s.length then decide (s.drop (s.length - suf.length) = suf) else false

/-- Fuel-driven core of `trimEndMatches`; every successful strip of a
non-empty suffix shortens the list, so `s.length` fuel is enough. -/
def trimEndFuel : Nat → List Char → List Char → List Char
  | 0, s, _ => s
  | n + 1, s, suf =>
    if endsWithL s suf ∧ suf.length ≠ 0 then
      trimEndFuel n (s.take (s.length - suf.length)) suf
    else s

/-- Models Rust `str::trim_end_matches`, which removes every trailing
occurrence of the pattern, not just one. -/
def trimEndMatches (s suf : List Char) : List Char := trimEndFuel s.length s suf

/-! ### Stable sort (models `Vec::sort_by`) -/

def insertBy {α : Type} (le : α → α → Bool) (x : α) : List α → List α
  | [] => [x]
  | y :: ys => if le y x && !(le x y) then y :: insertBy le x ys else x :: y :: ys

def insertSortBy {α : Type} (le : α → α → Bool) : List α → List α
  | [] => []
  | x :: xs => insertBy le x (insertSortBy le xs)

/-! ### Data model (`src/models.rs` and the richer revision used by
`src/logic.rs`, which reads `volume` and `is_spot` fields) -/

structure PairPrice where
  base : String
  quote : String
  price : ℚ
  volume : ℚ
  is_spot : Bool
deriving DecidableEq

structure TriangularResult where
  triangle : String
  pairs : List String
  profit_before : ℚ
  fees : ℚ
  profit_after : ℚ
  score_liquidity : ℚ
deriving DecidableEq

/-- The scan request shape of `src/models.rs` lines 21–25: it carries only
the exchange list and the minimum profit threshold. -/
structure ScanRequest where
  exchanges : List String
  min_profit : ℚ

/-! ### The scanner (`src/logic.rs`, `find_triangular_opportunities`) -/

/-- `logic.rs` line 15: `let fee_per_leg_pct = 0.10;` — a local constant,
not a parameter. -/
def fee_per_leg_pct : ℚ := 1 / 10

/-- `logic.rs` line 16: `let neighbor_limit = 100usize;` — a local
constant, not a parameter. -/
def neighbor_limit : Nat := 100

/-- `logic.rs` line 69: `(1.0 - fee_per_leg_pct / 100.0).powf(3.0)`. -/
def fee_factor : ℚ := (1 - fee_per_leg_pct / 100) ^ 3

/-- `logic.rs` line 70: `3.0 * fee_per_leg_pct`. -/
def total_fee_pct : ℚ := 3 * fee_per_leg_pct

/-- One step of the adjacency/liquidity build loop, `logic.rs` lines
23–38.  The filter is `!p.is_spot || p.price <= 0.0` — there is no
`is_finite` check at this stage. -/
def buildStep (acc : AMap (AMap ℚ) × AMap (AMap ℚ)) (p : PairPrice) :
    AMap (AMap ℚ) × AMap (AMap ℚ) :=
  if ¬ PairPrice.is_spot p ∨ p.price ≤ 0 then acc
  else
    let a := toUpperStr p.base
    let b := toUpperStr p.quote
    let adj := insert2 acc.1 a b p.price
    let adj := if 0 < p.price then insert2 adj b a (1 / p.price) else adj
    let vols := insert2 acc.2 a b p.volume
    let vols := insert2 vols b a p.volume
    (adj, vols)

/-- Adjacency (`base → quote → rate`) and liquidity (`base → quote →
volume`) maps, `logic.rs` lines 18–38. -/
def buildMaps (pairs : List PairPrice) : AMap (AMap ℚ) × AMap (AMap ℚ) :=
  pairs.foldl buildStep ([], [])

def volOf (vols : AMap (AMap ℚ)) (base q : String) : ℚ :=
  (lookup2 vols base q).getD 0

/-- Descending-volume comparator of `logic.rs` line 49:
`b.1.partial_cmp(&a.1).unwrap_or(Equal)` (always `Some` on rationals). -/
def volLE (x y : String × ℚ) : Bool := if y.2 ≤ x.2 then true else false

/-- Liquidity-ranked, truncated neighbor lists, `logic.rs` lines 41–55;
the scanner instantiates `limit` with the constant `neighbor_limit`. -/
def buildNeighborLists (adj vols : AMap (AMap ℚ)) (limit : Nat) :
    AMap (List String) :=
  adj.map (fun e =>
    let vec := e.2.map (fun t => (t.1, volOf vols e.1 t.1))
    let sorted := insertSortBy volLE vec
    (e.1, (sorted.take limit).map (fun t => t.1)))

/-- Predecessor sets, `logic.rs` lines 57–63. -/
def buildPreds (adj : AMap (AMap ℚ)) : AMap (List String) :=
  adj.foldl (fun preds e =>
    e.2.foldl (fun preds t =>
      insertA preds t.1 (insertSet ((lookupA preds t.1).getD []) e.1)) preds) []

/-- Strict lexicographic order on string triples (Rust derived `Ord`). -/
def tripleLtB (x y : String × String × String) : Bool :=
  if sLt x.1 y.1 then true
  else if sLt y.1 x.1 then false
  else if sLt x.2.1 y.2.1 then true
  else if sLt y.2.1 x.2.1 then false
  else sLt x.2.2 y.2.2

def minTriple (x y : String × String × String) : String × String × String :=
  if tripleLtB y x then y else x

/-- Canonical dedup key, `logic.rs` lines 119–128: the lexicographically
smallest of the three rotations (`rots.sort(); rots[0]`). -/
def canonKey (a b c : String) : String × String × String :=
  minTriple (minTriple (a, b, c) (b, c, a)) (c, a, b)

structure ScanState where
  seen : List (String × String × String)
  out : List TriangularResult

/-- Body of the innermost candidate loop, `logic.rs` lines 83–149,
threading the `seen` set and the output vector.  The `!gross.is_finite()`
rejection of line 98 is always false on rationals and is dropped here. -/
def processCandidate (adj vols : AMap (AMap ℚ)) (preds : AMap (List String))
    (min_profit_after : ℚ) (st : ScanState) (t : String × String × String) :
    ScanState :=
  let a := t.1
  let b := t.2.1
  let c := t.2.2
  if c = a ∨ c = b then st
  else if c ∉ (lookupA preds a).getD [] then st
  else
    match lookup2 adj a b, lookup2 adj b c, lookup2 adj c a with
    | some r_ab, some r_bc, some r_ca =>
      let gross := r_ab * r_bc * r_ca
      let profit_before := (gross - 1) * 100
      if profit_before ≤ 0 then st
      else
        let net := gross * fee_factor
        let profit_after := (net - 1) * 100
        if profit_after < min_profit_after then st
        else
          let v_ab := volOf vols a b
          let v_bc := volOf vols b c
          let v_ca := volOf vols c a
          let liquidity_score := min (min v_ab v_bc) v_ca
          let key := canonKey a b c
          if key ∈ st.seen then st
          else
            { seen := key :: st.seen
              out := st.out ++ [{
                triangle := a ++ " → " ++ b ++ " → " ++ c ++ " → " ++ a
                pairs := [a ++ "/" ++ b, b ++ "/" ++ c, c ++ "/" ++ a]
                profit_before := profit_before
                fees := total_fee_pct
                profit_after := profit_after
                score_liquidity := liquidity_score }] }
    | _, _, _ => st

def neighborsOf (nbrs : AMap (List String)) (x : String) : List String :=
  (lookupA nbrs x).getD []

/-- The candidate sequence visited by the nested loops of `logic.rs`
lines 73–83: `a` over the node keys, `b` over `neighbors[a]`, `c` over
`neighbors[b]`. -/
def candidateTriples (nbrs : AMap (List String)) :
    List (String × String × String) :=
  (keysOf nbrs).flatMap (fun a =>
    (neighborsOf nbrs a).flatMap (fun b =>
      (neighborsOf nbrs b).map (fun c => (a, b, c))))

/-- Final ranking comparator, `logic.rs` lines 154–159: descending
`profit_after`, ties broken by descending `score_liquidity`. -/
def resLE (x y : TriangularResult) : Bool :=
  if y.profit_after < x.profit_after then true
  else if x.profit_after < y.profit_after then false
  else if y.score_liquidity ≤ x.score_liquidity then true
  else false

/-- `find_triangular_opportunities` of `src/logic.rs` lines 10–162.
`fee_per_leg_pct` and `neighbor_limit` are the local constants above;
the only numeric input is `min_profit_after`. -/
def find_triangular_opportunities (_exchange : String)
    (pairs : List PairPrice) (min_profit_after : ℚ) : List TriangularResult :=
  let maps := buildMaps pairs
  let nbrs := buildNeighborLists maps.1 maps.2 neighbor_limit
  let preds := buildPreds maps.1
  let st := (candidateTriples nbrs).foldl
    (processCandidate maps.1 maps.2 preds min_profit_after) ⟨[], []⟩
  insertSortBy resLE st.out

/-! ### Symbol splitters -/

/-- Suffix list of `split_symbol_binance`, `binance.rs` line 179. -/
def binanceSuffixes : List String := ["BUSD", "USDT", "USDC", "BTC", "ETH", "BNB"]

/-- `split_symbol_binance` of `src/exchanges/binance.rs` lines 177–193:
first listed suffix that matches with a non-empty base wins, base is the
plain prefix slice `sym[..sym.len() - s.len()]`; fallback splits off the
last three characters when `sym.len() > 4`. -/
def split_symbol_binance (sym : String) : String × String :=
  match binanceSuffixes.find?
      (fun s => endsWithL sym.data s.data && s.data.length < sym.data.length) with
  | some s => (⟨sym.data.take (sym.data.length - s.data.length)⟩, s)
  | none =>
    if 4 < sym.data.length then
      (⟨sym.data.take (sym.data.length - 3)⟩, ⟨sym.data.drop (sym.data.length - 3)⟩)
    else ("", "")

/-- Suffix list of bybit `split_symbol`, `bybit.rs` line 120. -/
def bybitSuffixes : List String := ["USDT", "USDC", "BTC", "ETH"]

/-- `split_symbol` of `src/exchanges/bybit.rs` lines 119–128: the base is
computed with `trim_end_matches`, which strips the suffix repeatedly. -/
def split_symbol (symbol : String) : String × String :=
  match bybitSuffixes.find?
      (fun s => endsWithL symbol.data s.data && s.data.length < symbol.data.length) with
  | some s => (⟨trimEndMatches symbol.data s.data⟩, s)
  | none => ("", "")

/-! ### Snapshot gathering (`src/ws_manager.rs` lines 74–89) -/

/-- `gather_prices_for_exchanges`: concatenates the stored vectors for the
requested exchanges, trying the lowercased key first, then the exact key;
a missing key contributes nothing.  The source returns `Ok(merged)`
unconditionally, so the function is total and never an error. -/
def gather_prices_for_exchanges (store : AMap (List PairPrice))
    (exchanges : List String) : List PairPrice :=
  exchanges.foldl (fun merged ex =>
    match lookupA store (toLowerStr ex) with
    | some v => merged ++ v
    | none =>
      match lookupA store ex with
      | some v => merged ++ v
      | none => merged) []

/-! ### Concrete scan inputs used by the claims -/

/-- Scenario 1 of the spec: `A/B = 2.0`, `B/C = 3.0`, `C/A = 0.2`. -/
def scenario1Pairs : List PairPrice :=
  [⟨"A", "B", 2, 1, true⟩, ⟨"B", "C", 3, 1, true⟩, ⟨"C", "A", 1/5, 1, true⟩]

/-- Scenario 2 of the spec: `A/B = 2.0`, `B/C = 0.5`, `C/A = 1.0`
(gross exactly 1 on every 3-cycle). -/
def scenario2Pairs : List PairPrice :=
  [⟨"A", "B", 2, 1, true⟩, ⟨"B", "C", 1/2, 1, true⟩, ⟨"C", "A", 1, 1, true⟩]

/-- The same profitable triangle as Scenario 1, but with the `B/C` pair
inserted first, so that the scan encounters the cycle starting at `B`. -/
def rotationPairs : List PairPrice :=
  [⟨"B", "C", 2, 1, true⟩, ⟨"C", "A", 3, 1, true⟩, ⟨"A", "B", 1/4, 1, true⟩]

/-- The single result the scanner emits on `scenario1Pairs`. -/
def scenario1Result : TriangularResult :=
  ⟨"A → B → C → A", ["A/B", "B/C", "C/A"], 20, 3/10, 491008997/25000000, 1⟩

/-- The single result the scanner emits on `rotationPairs`. -/
def rotationResult : TriangularResult :=
  ⟨"B → C → A → B", ["B/C", "C/A", "A/B"], 50, 3/10, 991008997/20000000, 1⟩

/-! ### Map lemmas -/

theorem lookupA_insertA {β : Type} (m : AMap β) (k key : String) (v : β) :
    lookupA (insertA m k v) key = if key = k then some v else lookupA m key := by
  induction m with
  | nil => simp [insertA, lookupA]
  | cons e rest ih =>
    obtain ⟨k2, v2⟩ := e
    simp only [insertA]
    by_cases hk : k = k2
    · subst hk
      simp only [if_pos rfl, lookupA]
      by_cases hkey : key = k <;> simp [hkey, lookupA]
    · simp only [if_neg hk, lookupA]
      by_cases hkey : key = k2
      · subst hkey
        have hne : ¬ key = k := fun h => hk h.symm
        simp [hne]
      · simp [hkey, ih]

theorem lookup2_insert2 {β : Type} (m : AMap (AMap β)) (k1 k2 a b : String) (v : β) :
    lookup2 (insert2 m k1 k2 v) a b =
      if a = k1 ∧ b = k2 then some v else lookup2 m a b := by
  unfold insert2 lookup2
  rw [lookupA_insertA]
  by_cases ha : a = k1
  · subst ha
    rw [if_pos rfl]
    show lookupA (insertA ((lookupA m a).getD []) k2 v) b = _
    rw [lookupA_insertA]
    by_cases hb : b = k2
    · simp [hb]
    · simp only [hb, if_false, and_false]
      cases h : lookupA m a <;> simp [h, lookupA]
  · simp [ha]

/-! ### Stable-sort lemmas -/

theorem mem_insertBy {α : Type} (le : α → α → Bool) (x a : α) (l : List α) :
    a ∈ insertBy le x l ↔ a = x ∨ a ∈ l := by
  induction l with
  | nil => simp [insertBy]
  | cons y ys ih =>
    simp only [insertBy]
    split
    · simp only [List.mem_cons, ih]
      tauto
    · simp [List.mem_cons]

theorem mem_insertSortBy {α : Type} (le : α → α → Bool) (a : α) (l : List α) :
    a ∈ insertSortBy le l ↔ a ∈ l := by
  induction l with
  | nil => simp [insertSortBy]
  | cons y ys ih =>
    simp only [insertSortBy, mem_insertBy, List.mem_cons, ih]

theorem pairwise_insertBy {α : Type} (le : α → α → Bool)
    (htot : ∀ a b, le a b = true ∨ le b a = true)
    (htr : ∀ a b c, le a b = true → le b c = true → le a c = true)
    (x : α) (l : List α) (h : l.Pairwise (fun a b => le a b = true)) :
    (insertBy le x l).Pairwise (fun a b => le a b = true) := by
  induction l with
  | nil => simp [insertBy]
  | cons y ys ih =>
    rw [List.pairwise_cons] at h
    obtain ⟨hy, hys⟩ := h
    simp only [insertBy]
    split
    case isTrue hcond =>
      rw [Bool.and_eq_true, Bool.not_eq_true'] at hcond
      rw [List.pairwise_cons]
      refine ⟨?_, ih hys⟩
      intro b hb
      rcases (mem_insertBy le x b ys).mp hb with rfl | hb
      · exact hcond.1
      · exact hy b hb
    case isFalse hcond =>
      rw [Bool.and_eq_true, Bool.not_eq_true'] at hcond
      push_neg at hcond
      have hxy : le x y = true := by
        rcases htot x y with h1 | h1
        · exact h1
        · have h2 := hcond h1
          cases h3 : le x y
          · exact absurd h3 h2
          · rfl
      rw [List.pairwise_cons]
      constructor
      · intro b hb
        rcases List.mem_cons.mp hb with rfl | hb
        · exact hxy
        · exact htr x y b hxy (hy b hb)
      · rw [List.pairwise_cons]
        exact ⟨hy, hys⟩

theorem pairwise_insertSortBy {α : Type} (le : α → α → Bool)
    (htot : ∀ a b, le a b = true ∨ le b a = true)
    (htr : ∀ a b c, le a b = true → le b c = true → le a c = true)
    (l : List α) :
    (insertSortBy le l).Pairwise (fun a b => le a b = true) := by
  induction l with
  | nil => simp [insertSortBy]
  | cons y ys ih => exact pairwise_insertBy le htot htr y _ ih

/-! ### Comparator facts -/

theorem volLE_true_iff (x y : String × ℚ) : volLE x y = true ↔ y.2 ≤ x.2 := by
  unfold volLE
  split <;> simp_all

theorem volLE_total (x y : String × ℚ) : volLE x y = true ∨ volLE y x = true := by
  rw [volLE_true_iff, volLE_true_iff]
  exact le_total y.2 x.2

theorem volLE_trans (x y z : String × ℚ)
    (h1 : volLE x y = true) (h2 : volLE y z = true) : volLE x z = true := by
  rw [volLE_true_iff] at *
  exact le_trans h2 h1

theorem resLE_true_iff (x y : TriangularResult) :
    resLE x y = true ↔
      y.profit_after < x.profit_after ∨
        (x.profit_after = y.profit_after ∧ y.score_liquidity ≤ x.score_liquidity) := by
  unfold resLE
  split_ifs with h1 h2 h3
  · simp [h1]
  · have hne : x.profit_after ≠ y.profit_after := ne_of_lt h2
    simp [h1, hne]
  · have heq : x.profit_after = y.profit_after :=
      le_antisymm (not_lt.mp h1) (not_lt.mp h2)
    simp [heq, h3, lt_irrefl]
  · simp [h1, h3]

theorem resLE_total (x y : TriangularResult) : resLE x y = true ∨ resLE y x = true := by
  rw [resLE_true_iff, resLE_true_iff]
  rcases lt_trichotomy x.profit_after y.profit_after with h | h | h
  · exact Or.inr (Or.inl h)
  · rcases le_total x.score_liquidity y.score_liquidity with hs | hs
    · exact Or.inr (Or.inr ⟨h.symm, hs⟩)
    · exact Or.inl (Or.inr ⟨h, hs⟩)
  · exact Or.inl (Or.inl h)

theorem resLE_trans (x y z : TriangularResult)
    (h1 : resLE x y = true) (h2 : resLE y z = true) : resLE x z = true := by
  rw [resLE_true_iff] at *
  rcases h1 with h1 | ⟨h1a, h1b⟩ <;> rcases h2 with h2 | ⟨h2a, h2b⟩
  · exact Or.inl (by linarith)
  · exact Or.inl (by linarith [h2a.le])
  · exact Or.inl (by linarith [h1a.le])
  · exact Or.inr ⟨h1a.trans h2a, h2b.trans h1b⟩

/-! ### Rate positivity through the graph build -/

/-- All rates stored in a nested rate map are positive. -/
def ratesPos (m : AMap (AMap ℚ)) : Prop :=
  ∀ a b r, lookup2 m a b = some r → 0 < r

theorem ratesPos_insert2 {m : AMap (AMap ℚ)} {k1 k2 : String} {v : ℚ}
    (hm : ratesPos m) (hv : 0 < v) : ratesPos (insert2 m k1 k2 v) := by
  intro a b r h
  rw [lookup2_insert2] at h
  split at h
  · cases h
    exact hv
  · exact hm a b r h

theorem ratesPos_buildStep (acc : AMap (AMap ℚ) × AMap (AMap ℚ)) (p : PairPrice)
    (h : ratesPos acc.1) : ratesPos (buildStep acc p).1 := by
  unfold buildStep
  split
  · exact h
  case isFalse hcond =>
    push_neg at hcond
    have hpos : 0 < p.price := hcond.2
    simp only [if_pos hpos]
    exact ratesPos_insert2 (ratesPos_insert2 h hpos) (by positivity)

theorem ratesPos_buildMaps (pairs : List PairPrice) : ratesPos (buildMaps pairs).1 := by
  have hbase : ratesPos ([] : AMap (AMap ℚ)) := by
    intro a b r hr
    simp [lookup2, lookupA] at hr
  have hstep : ∀ (acc : AMap (AMap ℚ) × AMap (AMap ℚ)),
      ratesPos acc.1 → ratesPos (pairs.foldl buildStep acc).1 := by
    induction pairs with
    | nil => intro acc hacc; exact hacc
    | cons p rest ih =>
      intro acc hacc
      exact ih _ (ratesPos_buildStep acc p hacc)
  exact hstep ([], []) hbase

/-! ### Shape of every emitted result -/

/-- Every result pushed by the scan loop records the exact profit formulas
of `logic.rs` lines 99–106 for some gross multiplier that survived both
the positivity cut and the threshold cut. -/
def emittedShape (minp : ℚ) (r : TriangularResult) : Prop :=
  ∃ gross : ℚ,
    r.profit_before = (gross - 1) * 100 ∧
    r.profit_after = (gross * fee_factor - 1) * 100 ∧
    r.fees = total_fee_pct ∧
    0 < (gross - 1) * 100 ∧
    ¬ (gross * fee_factor - 1) * 100 < minp

theorem processCandidate_out {adj vols : AMap (AMap ℚ)} {preds : AMap (List String)}
    {minp : ℚ} {st : ScanState} {t : String × String × String} {r : TriangularResult}
    (h : r ∈ (processCandidate adj vols preds minp st t).out) :
    r ∈ st.out ∨ emittedShape minp r := by
  simp only [processCandidate] at h
  split at h
  · exact Or.inl h
  split at h
  · exact Or.inl h
  split at h
  case _ r_ab r_bc r_ca _ _ _ =>
    split at h
    · exact Or.inl h
    case isFalse hpb =>
      split at h
      · exact Or.inl h
      case isFalse hpa =>
        split at h
        · exact Or.inl h
        · simp only [List.mem_append, List.mem_singleton] at h
          rcases h with h | h
          · exact Or.inl h
          · subst h
            exact Or.inr ⟨r_ab * r_bc * r_ca, rfl, rfl, rfl, not_le.mp hpb, hpa⟩
  case _ => exact Or.inl h

theorem foldl_out {adj vols : AMap (AMap ℚ)} {preds : AMap (List String)} {minp : ℚ}
    (ts : List (String × String × String)) (st : ScanState) (r : TriangularResult)
    (h : r ∈ (ts.foldl (processCandidate adj vols preds minp) st).out) :
    r ∈ st.out ∨ emittedShape minp r := by
  induction ts generalizing st with
  | nil => exact Or.inl h
  | cons t ts ih =>
    rcases ih _ h with h2 | h2
    · exact processCandidate_out h2
    · exact Or.inr h2

theorem mem_find_shape {ex : String} {pairs : List PairPrice} {minp : ℚ}
    {r : TriangularResult}
    (h : r ∈ find_triangular_opportunities ex pairs minp) : emittedShape minp r := by
  unfold find_triangular_opportunities at h
  rw [mem_insertSortBy] at h
  rcases foldl_out _ _ _ h with h2 | h2
  · simp at h2
  · exact h2

/-! ### Neighbor-list specification -/

theorem buildNeighborLists_spec (adj vols : AMap (AMap ℚ)) (limit : Nat)
    (base : String) (lst : List String)
    (h : lookupA (buildNeighborLists adj vols limit) base = some lst) :
    lst.length ≤ limit ∧
      lst.Pairwise (fun q1 q2 => volOf vols base q2 ≤ volOf vols base q1) := by
  induction adj with
  | nil => simp [buildNeighborLists, lookupA] at h
  | cons e rest ih =>
    simp only [buildNeighborLists, List.map_cons, lookupA] at h
    split at h
    case isTrue hb =>
      rw [Option.some.injEq] at h
      subst h
      subst hb
      constructor
      · calc ((insertSortBy volLE (e.2.map (fun t => (t.1, volOf vols e.1 t.1)))).take
              limit |>.map (fun t => t.1)).length
            = ((insertSortBy volLE (e.2.map (fun t => (t.1, volOf vols e.1 t.1)))).take
              limit).length := List.length_map _ _
          _ ≤ limit := List.length_take_le _ _
      · have hsorted := pairwise_insertSortBy volLE volLE_total volLE_trans
          (e.2.map (fun t => (t.1, volOf vols e.1 t.1)))
        have htake := List.Pairwise.sublist (List.take_sublist limit _) hsorted
        rw [List.pairwise_map]
        refine List.Pairwise.imp_of_mem ?_ htake
        intro z w hz hw hzw
        rw [volLE_true_iff] at hzw
        have hshape : ∀ u, u ∈ (insertSortBy volLE
            (e.2.map (fun t => (t.1, volOf vols e.1 t.1)))).take limit →
            u.2 = volOf vols e.1 u.1 := by
          intro u hu
          have hu2 := (mem_insertSortBy _ _ _).mp (List.mem_of_mem_take hu)
          rw [List.mem_map] at hu2
          obtain ⟨t, _, ht⟩ := hu2
          rw [← ht]
        rw [hshape z hz, hshape w hw] at hzw
        exact hzw
    case isFalse hb =>
      exact ih (by simpa [buildNeighborLists] using h)

/-! ### Concrete evaluations -/

theorem find_scenario1_eq :
    find_triangular_opportunities "" scenario1Pairs 0 = [scenario1Result] := by
  norm_num +decide [find_triangular_opportunities, buildMaps, buildStep, buildNeighborLists,
    buildPreds, candidateTriples, processCandidate, insertSortBy, insertBy, insert2, insertA,
    insertSet, lookupA, lookup2, keysOf, neighborsOf, canonKey, minTriple, tripleLtB, sLt,
    strLtB, toUpperStr, resLE, volLE, volOf, fee_factor, fee_per_leg_pct, neighbor_limit,
    total_fee_pct, scenario1Pairs, scenario1Result]

theorem find_rotation_eq :
    find_triangular_opportunities "" rotationPairs 0 = [rotationResult] := by
  norm_num +decide [find_triangular_opportunities, buildMaps, buildStep, buildNeighborLists,
    buildPreds, candidateTriples, processCandidate, insertSortBy, insertBy, insert2, insertA,
    insertSet, lookupA, lookup2, keysOf, neighborsOf, canonKey, minTriple, tripleLtB, sLt,
    strLtB, toUpperStr, resLE, volLE, volOf, fee_factor, fee_per_leg_pct, neighbor_limit,
    total_fee_pct, rotationPairs, rotationResult]

theorem find_scenario2_eq (minp : ℚ) :
    find_triangular_opportunities "" scenario2Pairs minp = [] := by
  norm_num +decide [find_triangular_opportunities, buildMaps, buildStep, buildNeighborLists,
    buildPreds, candidateTriples, processCandidate, insertSortBy, insertBy, insert2, insertA,
    insertSet, lookupA, lookup2, keysOf, neighborsOf, canonKey, minTriple, tripleLtB, sLt,
    strLtB, toUpperStr, resLE, volLE, volOf, fee_factor, fee_per_leg_pct, neighbor_limit,
    total_fee_pct, scenario2Pairs]

theorem find_nil_eq (ex : String) (minp : ℚ) :
    find_triangular_opportunities ex [] minp = [] := rfl

theorem gather_empty (store : AMap (List PairPrice)) :
    ∀ l : List String,
      (∀ e ∈ l, lookupA store (toLowerStr e) = none ∧ lookupA store e = none) →
      gather_prices_for_exchanges store l = [] := by
  intro l
  induction l with
  | nil => intro _; rfl
  | cons e es ih =>
    intro h
    have he := h e (List.mem_cons_self e es)
    have ht := ih (fun x hx => h x (List.mem_cons_of_mem e hx))
    unfold gather_prices_for_exchanges at ht ⊢
    simp only [List.foldl_cons, he.1, he.2]
    exact ht

/-! ### Claim theorems -/

/-- C1 (amended): the scan deduplicates 3-cycles by their canonical key —
the lexicographically smallest rotation — skipping any candidate whose
rotation class is already in the seen-set; but the emitted representative
keeps the orientation at which the cycle was first encountered during
iteration (`logic.rs` line 134 formats `a → b → c → a` as iterated), which
need not be the lexicographically smallest rotation: on `rotationPairs`
the single emitted triangle starts at `B` while the canonical rotation of
the class starts at `A`. -/
theorem C1_rotation_dedup :
    (∀ (adj vols : AMap (AMap ℚ)) (preds : AMap (List String)) (minp : ℚ)
        (st : ScanState) (t : String × String × String),
        canonKey t.1 t.2.1 t.2.2 ∈ st.seen →
          processCandidate adj vols preds minp st t = st) ∧
      find_triangular_opportunities "" rotationPairs 0 = [rotationResult] ∧
      TriangularResult.triangle rotationResult = "B → C → A → B" ∧
      canonKey "B" "C" "A" = ("A", "B", "C") := by
  refine ⟨?_, find_rotation_eq, rfl, by decide⟩
  intro adj vols preds minp st t hseen
  simp only [processCandidate, hseen, if_true]
  repeat' split
  all_goals rfl

/-- Witness for C1: a candidate whose canonical rotation key is already in
the seen-set leaves the scan state unchanged. -/
theorem C1_rotation_dedup_witness :
    processCandidate [] [] [] 0 ⟨[("A", "B", "C")], []⟩ ("A", "B", "C") =
      ⟨[("A", "B", "C")], []⟩ :=
  C1_rotation_dedup.1 [] [] [] 0 ⟨[("A", "B", "C")], []⟩ ("A", "B", "C") (by decide)

/-- Counterexample to C1 as stated: on `rotationPairs` the scan emits the
triangle string starting at `B`, although the lexicographically smallest
rotation of that cycle starts at `A`, so the emitted representative is not
the canonical rotation. -/
theorem C1_emitted_orientation_counterexample :
    (find_triangular_opportunities "" rotationPairs 0).map
        (fun r => TriangularResult.triangle r) = ["B → C → A → B"] ∧
      canonKey "B" "C" "A" = ("A", "B", "C") ∧
      ("B → C → A → B" : String) ≠ "A → B → C → A" := by
  refine ⟨?_, by decide, by decide⟩
  rw [find_rotation_eq]
  rfl

/-- C2 (amended): every rate stored in the adjacency built by
`logic.rs` lines 23–38 is positive — the filter keeps exactly the entries
that are spot with positive price, and the synthetic inverse `1/price` of
a positive price is positive.  (The source has no `is_finite` check at
this stage, and base = quote is not filtered, so self-loops are possible;
see the counterexample.) -/
theorem C2_rates_positive (pairs : List PairPrice) (a b : String) (r : ℚ)
    (h : lookup2 (buildMaps pairs).1 a b = some r) : 0 < r :=
  ratesPos_buildMaps pairs a b r h

/-- Witness for C2: the `A → B` rate of Scenario 1 is stored as `2`,
and the theorem yields its positivity. -/
theorem C2_rates_positive_witness :
    lookup2 (buildMaps scenario1Pairs).1 "A" "B" = some 2 ∧ (0 : ℚ) < 2 := by
  have h : lookup2 (buildMaps scenario1Pairs).1 "A" "B" = some 2 := by
    norm_num +decide [buildMaps, buildStep, insert2, insertA, lookupA, lookup2,
      toUpperStr, scenario1Pairs]
  exact ⟨h, C2_rates_positive scenario1Pairs "A" "B" 2 h⟩

/-- A spot pair whose base equals its quote. -/
def selfLoopPair : PairPrice := ⟨"AAA", "AAA", 2, 1, true⟩

/-- Counterexample to C2 as stated: a spot pair with `base = quote`
passes the filter of `logic.rs` line 25, so the adjacency contains the
self-loop edge `AAA → AAA` (holding `1/2`, the inverse insertion having
overwritten the direct one). -/
theorem C2_self_loop_counterexample :
    lookup2 (buildMaps [selfLoopPair]).1 "AAA" "AAA" = some (1/2) := by
  norm_num +decide [buildMaps, buildStep, insert2, insertA, lookupA, lookup2,
    toUpperStr, selfLoopPair]

/-- C3 (amended): the per-leg fee and the neighbor limit are fixed local
constants of `find_triangular_opportunities` (`logic.rs` lines 15–16),
valued `0.10` and `100`; they are not supplied through the scan request
(`ScanRequest` carries only `exchanges` and `min_profit`), and every
emitted result carries the fee total `3 × 0.10` regardless of inputs. -/
theorem C3_fee_and_limit_are_constants :
    fee_per_leg_pct = 1/10 ∧ neighbor_limit = 100 ∧
      ∀ (ex : String) (pairs : List PairPrice) (minp : ℚ) (r : TriangularResult),
        r ∈ find_triangular_opportunities ex pairs minp →
          TriangularResult.fees r = 3 * fee_per_leg_pct := by
  refine ⟨rfl, rfl, ?_⟩
  intro ex pairs minp r h
  obtain ⟨g, _, _, hfees, _, _⟩ := mem_find_shape h
  rw [hfees]
  rfl

/-- Witness for C3 at Scenario 1. -/
theorem C3_fee_and_limit_witness :
    scenario1Result ∈ find_triangular_opportunities "" scenario1Pairs 0 ∧
      TriangularResult.fees scenario1Result = 3 * fee_per_leg_pct := by
  have hm : scenario1Result ∈ find_triangular_opportunities "" scenario1Pairs 0 := by
    rw [find_scenario1_eq]
    exact List.mem_singleton_self _
  exact ⟨hm, C3_fee_and_limit_are_constants.2.2 "" scenario1Pairs 0 scenario1Result hm⟩

/-- Counterexample to C3 as stated: the scanner exposes no fee or
neighbor-limit input — they are the constants `0.10` and `100` — and a
concrete scan emits the fixed fee total `3 × 0.10`. -/
theorem C3_constants_counterexample :
    fee_per_leg_pct = 1/10 ∧ neighbor_limit = 100 ∧
      (find_triangular_opportunities "" scenario1Pairs 0).map
        (fun r => TriangularResult.fees r) = [3 * fee_per_leg_pct] := by
  refine ⟨rfl, rfl, ?_⟩
  rw [find_scenario1_eq]
  norm_num [scenario1Result, fee_per_leg_pct]

/-- C4 (amended): the emitted percentage fields are the exact computed
values of `logic.rs` lines 99–106 — the source performs no two-decimal
rounding (lines 141–148 store `profit_before`, `total_fee_pct` and
`profit_after` unchanged); Scenario 1 emits `profit_after` as the exact
rational `19.64035988`. -/
theorem C4_exact_unrounded_values :
    (∀ (ex : String) (pairs : List PairPrice) (minp : ℚ) (r : TriangularResult),
        r ∈ find_triangular_opportunities ex pairs minp →
          ∃ gross : ℚ,
            TriangularResult.profit_before r = (gross - 1) * 100 ∧
            TriangularResult.profit_after r = (gross * fee_factor - 1) * 100 ∧
            TriangularResult.fees r = total_fee_pct) ∧
      TriangularResult.profit_after scenario1Result = 491008997/25000000 := by
  refine ⟨?_, rfl⟩
  intro ex pairs minp r h
  obtain ⟨g, h1, h2, h3, _, _⟩ := mem_find_shape h
  exact ⟨g, h1, h2, h3⟩

/-- Witness for C4 at Scenario 1. -/
theorem C4_exact_values_witness :
    scenario1Result ∈ find_triangular_opportunities "" scenario1Pairs 0 ∧
      ∃ gross : ℚ,
        TriangularResult.profit_before scenario1Result = (gross - 1) * 100 ∧
        TriangularResult.profit_after scenario1Result = (gross * fee_factor - 1) * 100 ∧
        TriangularResult.fees scenario1Result = total_fee_pct := by
  have hm : scenario1Result ∈ find_triangular_opportunities "" scenario1Pairs 0 := by
    rw [find_scenario1_eq]
    exact List.mem_singleton_self _
  exact ⟨hm, C4_exact_unrounded_values.1 "" scenario1Pairs 0 scenario1Result hm⟩

/-- Counterexample to C4 as stated: the Scenario 1 result carries a
`profit_after` value that is not expressible with two decimal places, so
it cannot have been rounded to two decimals. -/
theorem C4_no_rounding_counterexample :
    find_triangular_opportunities "" scenario1Pairs 0 = [scenario1Result] ∧
      ¬ ∃ n : ℤ, TriangularResult.profit_after scenario1Result = (n : ℚ) / 100 := by
  refine ⟨find_scenario1_eq, ?_⟩
  rintro ⟨n, hn⟩
  simp only [scenario1Result] at hn
  have h1 : (491008997 : ℚ) * 100 = (n : ℚ) * 25000000 := by
    field_simp at hn
    linarith
  have h2 : (491008997 : ℤ) * 100 = n * 25000000 := by exact_mod_cast h1
  omega

/-- C5: every emitted result obeys the profit formulas of `logic.rs`
lines 97–106 for its gross multiplier — `profit_before = (gross − 1)·100`,
`profit_after = (gross·(1 − fee/100)³ − 1)·100`, `fees = 3·fee` with the
per-leg fee `0.10` — and on the Scenario 1 rates (gross = 1.2) the scan
emits `profit_before = 20` and `profit_after ≈ 19.64`. -/
theorem C5_profit_formulas :
    (∀ (ex : String) (pairs : List PairPrice) (minp : ℚ) (r : TriangularResult),
        r ∈ find_triangular_opportunities ex pairs minp →
          ∃ gross : ℚ,
            TriangularResult.profit_before r = (gross - 1) * 100 ∧
            TriangularResult.profit_after r
              = (gross * (1 - fee_per_leg_pct / 100) ^ 3 - 1) * 100 ∧
            TriangularResult.fees r = 3 * fee_per_leg_pct) ∧
      find_triangular_opportunities "" scenario1Pairs 0 = [scenario1Result] ∧
      TriangularResult.profit_before scenario1Result = 20 ∧
      |TriangularResult.profit_after scenario1Result - 1964/100| < 1/100 := by
  refine ⟨?_, find_scenario1_eq, rfl, ?_⟩
  · intro ex pairs minp r h
    obtain ⟨g, h1, h2, h3, _, _⟩ := mem_find_shape h
    exact ⟨g, h1, h2, h3⟩
  · rw [abs_lt]
    constructor <;> norm_num [scenario1Result]

/-- Witness for C5 at Scenario 1. -/
theorem C5_profit_formulas_witness :
    scenario1Result ∈ find_triangular_opportunities "" scenario1Pairs 0 ∧
      ∃ gross : ℚ,
        TriangularResult.profit_before scenario1Result = (gross - 1) * 100 ∧
        TriangularResult.profit_after scenario1Result
          = (gross * (1 - fee_per_leg_pct / 100) ^ 3 - 1) * 100 ∧
        TriangularResult.fees scenario1Result = 3 * fee_per_leg_pct := by
  have hm : scenario1Result ∈ find_triangular_opportunities "" scenario1Pairs 0 := by
    rw [find_scenario1_eq]
    exact List.mem_singleton_self _
  exact ⟨hm, C5_profit_formulas.1 "" scenario1Pairs 0 scenario1Result hm⟩

/-- C6: every emitted result survived the `profit_before <= 0` cut of
`logic.rs` lines 99–102, so cycles with gross ≤ 1 are never emitted; and
the Scenario 2 rates (every 3-cycle has gross exactly 1) yield zero
opportunities for every threshold at or below zero. -/
theorem C6_nonpositive_gross_skipped :
    (∀ (ex : String) (pairs : List PairPrice) (minp : ℚ) (r : TriangularResult),
        r ∈ find_triangular_opportunities ex pairs minp →
          0 < TriangularResult.profit_before r) ∧
      ∀ minp : ℚ, minp ≤ 0 →
        find_triangular_opportunities "" scenario2Pairs minp = [] := by
  constructor
  · intro ex pairs minp r h
    obtain ⟨g, h1, _, _, h4, _⟩ := mem_find_shape h
    rw [h1]
    exact h4
  · intro minp _
    exact find_scenario2_eq minp

/-- Witness for C6: the emitted `rotationPairs` result has positive
`profit_before`, and Scenario 2 with threshold −1 yields no results. -/
theorem C6_nonpositive_gross_witness :
    (0 : ℚ) < TriangularResult.profit_before rotationResult ∧
      find_triangular_opportunities "" scenario2Pairs (-1) = [] := by
  have hm : rotationResult ∈ find_triangular_opportunities "" rotationPairs 0 := by
    rw [find_rotation_eq]
    exact List.mem_singleton_self _
  exact ⟨C6_nonpositive_gross_skipped.1 "" rotationPairs 0 rotationResult hm,
    C6_nonpositive_gross_skipped.2 (-1) (by norm_num)⟩

/-- C7: the scan output is sorted by descending `profit_after`, ties
broken by descending `score_liquidity` (`logic.rs` lines 153–159). -/
theorem C7_output_sorted (ex : String) (pairs : List PairPrice) (minp : ℚ) :
    (find_triangular_opportunities ex pairs minp).Pairwise
      (fun x y => y.profit_after < x.profit_after ∨
        (x.profit_after = y.profit_after ∧
          y.score_liquidity ≤ x.score_liquidity)) := by
  unfold find_triangular_opportunities
  exact (pairwise_insertSortBy resLE resLE_total resLE_trans _).imp
    (fun h => (resLE_true_iff _ _).mp h)

/-- Adjacency of a node with two outgoing edges. -/
def neighborAdjEx : AMap (AMap ℚ) := [("A", [("B", 2), ("C", 3)])]

/-- Liquidity map giving the two edges different volumes. -/
def neighborVolEx : AMap (AMap ℚ) := [("A", [("B", 5), ("C", 9)])]

/-- C8: every neighbor list built by `logic.rs` lines 41–55 is ordered by
descending liquidity and truncated to at most `limit` entries; with
`limit = 1` and a node with two outgoing edges of volumes 5 and 9, only
the higher-liquidity target is retained. -/
theorem C8_neighbor_ranked_truncated :
    (∀ (adj vols : AMap (AMap ℚ)) (limit : Nat) (base : String) (lst : List String),
        lookupA (buildNeighborLists adj vols limit) base = some lst →
          lst.length ≤ limit ∧
            lst.Pairwise (fun q1 q2 => volOf vols base q2 ≤ volOf vols base q1)) ∧
      buildNeighborLists neighborAdjEx neighborVolEx 1 = [("A", ["C"])] := by
  refine ⟨buildNeighborLists_spec, ?_⟩
  norm_num +decide [buildNeighborLists, insertSortBy, insertBy, volLE, volOf,
    lookup2, lookupA, neighborAdjEx, neighborVolEx]

/-- Witness for C8 at the two-edge example with limit 1. -/
theorem C8_neighbor_witness :
    (["C"] : List String).length ≤ 1 ∧
      (["C"] : List String).Pairwise
        (fun q1 q2 => volOf neighborVolEx "A" q2 ≤ volOf neighborVolEx "A" q1) :=
  C8_neighbor_ranked_truncated.1 neighborAdjEx neighborVolEx 1 "A" ["C"]
    (by norm_num +decide [buildNeighborLists, insertSortBy, insertBy, volLE, volOf,
      lookup2, lookupA, neighborAdjEx, neighborVolEx])

/-- C9: the bybit splitter computes the base with `trim_end_matches`,
which strips the suffix repeatedly, so `normalize(base + quote)` with
`base = "XBTC"`, `quote = "BTC"` returns `("X", "BTC")` instead of
`("XBTC", "BTC")` — the round-trip fails; the sibling Binance splitter
(plain prefix slice) round-trips the same input correctly. -/
theorem C9_bybit_split_trim_bug :
    split_symbol ("XBTC" ++ "BTC") = ("X", "BTC") ∧
      split_symbol_binance ("XBTC" ++ "BTC") = ("XBTC", "BTC") := by
  constructor <;> decide

/-- C10: exchanges with no stored snapshot contribute no pairs — the
gather step is total (the source returns `Ok(merged)` unconditionally) —
and a scan over zero pairs yields zero opportunities, so requesting a
scan for unknown or not-yet-populated exchanges returns an empty list and
never an error. -/
theorem C10_unknown_exchanges_empty (store : AMap (List PairPrice))
    (exchanges : List String) (ex : String) (minp : ℚ)
    (h : ∀ e ∈ exchanges,
      lookupA store (toLowerStr e) = none ∧ lookupA store e = none) :
    gather_prices_for_exchanges store exchanges = [] ∧
      find_triangular_opportunities ex
        (gather_prices_for_exchanges store exchanges) minp = [] := by
  have hg := gather_empty store exchanges h
  refine ⟨hg, ?_⟩
  rw [hg]
  exact find_nil_eq ex minp

/-- Witness for C10: a store holding only Binance data, queried for an
exchange with no data. -/
theorem C10_unknown_exchanges_witness :
    gather_prices_for_exchanges [("binance", scenario1Pairs)] ["kraken"] = [] ∧
      find_triangular_opportunities "kraken"
        (gather_prices_for_exchanges [("binance", scenario1Pairs)] ["kraken"]) 0 = [] :=
  C10_unknown_exchanges_empty [("binance", scenario1Pairs)] ["kraken"] "kraken" 0
    (by
      intro e he
      rw [List.mem_singleton] at he
      subst he
      constructor <;> decide)
